import Mathlib

/-!
Shallow embedding of `src/macos/local_mac_transport.py` (pipecat-dictation):
the local macOS audio transport.  Pure fragments of the Python code are
translated into executable Lean definitions; the claims of the design
specification are then proved or refuted against them.
-/

namespace Dictation

/-! ### Capture accumulator (`MacInputTransport._poll_capture`)

`bytes_per_20ms = int(self._sample_rate * 0.02) * self._params.audio_in_channels * 2`.
`int(sr * 0.02)` truncates; for the sample rates used it equals `sr * 2 / 100`
in exact (Nat) arithmetic. -/

def bytesPer20ms (sampleRate channels : Nat) : Nat :=
  sampleRate * 2 / 100 * channels * 2

/-- The inner drain loop of `_poll_capture`:
`while len(buf) >= bytes_per_20ms: chunk = bytes(buf[:bytes_per_20ms]); del buf[:bytes_per_20ms]; ... push_audio_frame(frame)`.
Returns the emitted frame payloads in emission order together with the bytes
left in the accumulator. -/
def drainFrames (frameSize : Nat) (buf : List Nat) : List (List Nat) × List Nat :=
  if _h : 0 < frameSize ∧ frameSize ≤ buf.length then
    let rest := drainFrames frameSize (buf.drop frameSize)
    (buf.take frameSize :: rest.1, rest.2)
  else
    ([], buf)
termination_by buf.length
decreasing_by
  simp only [List.length_drop]
  omega

/-- One tick of the `_poll_capture` while-loop, distinguishing its two
branches.  With `vpio_read_capture` resolved (the streaming path) the freshly
read bytes are appended to the accumulator (`buf.extend(bytes(cbuf[:n]))`)
and the drain loop then runs.  When the symbol is absent, the
except-AttributeError branch appends the single-shot record/copy bytes and
executes `continue`: control returns to the top of the while loop without
reaching the drain loop, so that tick emits no frames and leaves everything
in the accumulator. -/
def pollTick (hasReadCapture : Bool) (frameSize : Nat) (acc chunk : List Nat) :
    List (List Nat) × List Nat :=
  if hasReadCapture then drainFrames frameSize (acc ++ chunk)
  else ([], acc ++ chunk)

/-- The poll loop over a sequence of per-tick reads, starting from accumulator
`acc`; the frames of all ticks are concatenated in order. -/
def runPoll (hasReadCapture : Bool) (frameSize : Nat) (acc : List Nat) :
    List (List Nat) → List (List Nat) × List Nat
  | [] => ([], acc)
  | c :: cs =>
      let t := pollTick hasReadCapture frameSize acc c
      let r := runPoll hasReadCapture frameSize t.2 cs
      (t.1 ++ r.1, r.2)

theorem pollTick_streaming (frameSize : Nat) (acc chunk : List Nat) :
    pollTick true frameSize acc chunk = drainFrames frameSize (acc ++ chunk) := rfl

theorem pollTick_fallback (frameSize : Nat) (acc chunk : List Nat) :
    pollTick false frameSize acc chunk = ([], acc ++ chunk) := rfl

theorem drainFrames_spec (frameSize : Nat) (h : 0 < frameSize) (buf : List Nat) :
    (∀ f ∈ (drainFrames frameSize buf).1, f.length = frameSize) ∧
    (drainFrames frameSize buf).1.flatten ++ (drainFrames frameSize buf).2 = buf ∧
    (drainFrames frameSize buf).2.length < frameSize := by
  generalize hn : buf.length = n
  induction n using Nat.strong_induction_on generalizing buf with
  | _ n ih =>
    rw [drainFrames]
    by_cases hle : frameSize ≤ buf.length
    · simp only [dif_pos (And.intro h hle)]
      have hdrop : (buf.drop frameSize).length < n := by
        simp only [List.length_drop]; omega
      obtain ⟨ih1, ih2, ih3⟩ := ih (buf.drop frameSize).length (by omega) (buf.drop frameSize) rfl
      refine ⟨?_, ?_, ih3⟩
      · intro f hf
        rcases List.mem_cons.mp hf with hf | hf
        · subst hf; exact List.length_take_of_le hle
        · exact ih1 f hf
      · simp only [List.flatten_cons, List.append_assoc, ih2]
        exact List.take_append_drop frameSize buf
    · have : ¬ (0 < frameSize ∧ frameSize ≤ buf.length) := fun hc => hle hc.2
      simp only [dif_neg this]
      refine ⟨by simp, by simp, ?_⟩
      omega

theorem drainFrames_count (frameSize : Nat) (h : 0 < frameSize) (buf : List Nat) :
    (drainFrames frameSize buf).1.length = buf.length / frameSize ∧
    (drainFrames frameSize buf).2.length = buf.length % frameSize := by
  obtain ⟨h1, h2, h3⟩ := drainFrames_spec frameSize h buf
  have hlen : ((drainFrames frameSize buf).1.flatten).length +
      (drainFrames frameSize buf).2.length = buf.length := by
    rw [← List.length_append, h2]
  have hjoin : ((drainFrames frameSize buf).1.flatten).length =
      (drainFrames frameSize buf).1.length * frameSize := by
    rw [List.length_flatten]
    have : ∀ l ∈ (drainFrames frameSize buf).1.map List.length, l = frameSize := by
      intro l hl
      rcases List.mem_map.mp hl with ⟨f, hf, rfl⟩
      exact h1 f hf
    rw [List.eq_replicate_of_mem this, List.sum_replicate, List.length_map, smul_eq_mul]
  have key : (drainFrames frameSize buf).2.length +
      frameSize * (drainFrames frameSize buf).1.length = buf.length ∧
      (drainFrames frameSize buf).2.length < frameSize := by
    constructor
    · rw [Nat.mul_comm]; omega
    · exact h3
  have hdm := (Nat.div_mod_unique h).mpr key
  exact ⟨hdm.1.symm, hdm.2.symm⟩

theorem runPoll_streaming_spec (frameSize : Nat) (h : 0 < frameSize)
    (chunks : List (List Nat)) (acc : List Nat) (hacc : acc.length < frameSize) :
    (∀ f ∈ (runPoll true frameSize acc chunks).1, f.length = frameSize) ∧
    (runPoll true frameSize acc chunks).1.flatten ++ (runPoll true frameSize acc chunks).2
      = acc ++ chunks.flatten ∧
    (runPoll true frameSize acc chunks).2.length < frameSize := by
  induction chunks generalizing acc with
  | nil => exact ⟨by simp [runPoll], by simp [runPoll], by simpa [runPoll] using hacc⟩
  | cons c cs ih =>
    obtain ⟨t1, t2, t3⟩ := drainFrames_spec frameSize h (acc ++ c)
    obtain ⟨i1, i2, i3⟩ := ih (drainFrames frameSize (acc ++ c)).2 t3
    refine ⟨?_, ?_, by simpa [runPoll, pollTick_streaming] using i3⟩
    · intro f hf
      simp only [runPoll, pollTick_streaming, List.mem_append] at hf
      rcases hf with hf | hf
      · exact t1 f hf
      · exact i1 f hf
    · simp only [runPoll, pollTick_streaming, List.flatten_append, List.append_assoc, i2,
        List.flatten_cons]
      rw [← List.append_assoc _ _ (cs.flatten), t2, List.append_assoc]

theorem runPoll_fallback (frameSize : Nat) (chunks : List (List Nat)) (acc : List Nat) :
    (runPoll false frameSize acc chunks).1 = [] ∧
    (runPoll false frameSize acc chunks).2 = acc ++ chunks.flatten := by
  induction chunks generalizing acc with
  | nil => exact ⟨rfl, by simp [runPoll]⟩
  | cons c cs ih =>
    obtain ⟨i1, i2⟩ := ih (acc ++ c)
    refine ⟨?_, ?_⟩
    · simp only [runPoll, pollTick_fallback, List.nil_append]
      exact i1
    · simp only [runPoll, pollTick_fallback]
      rw [i2, List.flatten_cons, List.append_assoc]

/-- C1 counterexample: when `vpio_read_capture` is absent (the fallback
configuration the binder leaves reachable), each tick takes the
except-AttributeError branch and `continue`s before the drain loop: feeding
the claim's own 1601-byte example at frame size 640 (= 16000 Hz, 1 channel)
emits zero frames — not two — and retains an accumulator of 1601 bytes, which
is not strictly smaller than the frame size.  The unqualified claim is false
in this reachable configuration. -/
theorem capture_fallback_no_frames :
    (runPoll false (bytesPer20ms 16000 1) [] [List.replicate 1601 0]).1 = [] ∧
    (runPoll false (bytesPer20ms 16000 1) [] [List.replicate 1601 0]).2.length = 1601 ∧
    ¬ ((runPoll false (bytesPer20ms 16000 1) [] [List.replicate 1601 0]).2.length
        < bytesPer20ms 16000 1) := by
  obtain ⟨f1, f2⟩ := runPoll_fallback (bytesPer20ms 16000 1) [List.replicate 1601 0] []
  have hlen : (runPoll false (bytesPer20ms 16000 1) [] [List.replicate 1601 0]).2.length
      = 1601 := by
    rw [f2]
    simp only [List.nil_append, List.flatten_cons, List.flatten_nil, List.append_nil,
      List.length_replicate]
  refine ⟨f1, hlen, ?_⟩
  rw [hlen]
  decide

/-- C1 (amended): on the streaming read path (`vpio_read_capture` resolved)
every frame emitted by the capture poll loop has payload length exactly the
configured frame size (`int(sample_rate * 0.02) * channels * 2` bytes), the
frames appear in arrival order (their concatenation followed by the retained
remainder reproduces the input byte stream), exactly one remainder strictly
smaller than the frame size is retained between ticks, and a total of `L`
accumulated bytes yields `L / frameSize` frames and an `L % frameSize`-byte
remainder.  In the fallback branch (`vpio_read_capture` absent) every tick
`continue`s before the drain loop: no frames are ever emitted and the whole
input stays in the accumulator, growing past the frame size. -/
theorem capture_frames_exact (frameSize : Nat) (h : 0 < frameSize)
    (chunks : List (List Nat)) (acc : List Nat) (hacc : acc.length < frameSize) :
    ((∀ f ∈ (runPoll true frameSize acc chunks).1, f.length = frameSize) ∧
     (runPoll true frameSize acc chunks).1.flatten ++ (runPoll true frameSize acc chunks).2
       = acc ++ chunks.flatten ∧
     (runPoll true frameSize acc chunks).2.length < frameSize ∧
     (runPoll true frameSize acc chunks).1.length = (acc ++ chunks.flatten).length / frameSize ∧
     (runPoll true frameSize acc chunks).2.length = (acc ++ chunks.flatten).length % frameSize) ∧
    ((runPoll false frameSize acc chunks).1 = [] ∧
     (runPoll false frameSize acc chunks).2 = acc ++ chunks.flatten) := by
  refine ⟨?_, runPoll_fallback frameSize chunks acc⟩
  obtain ⟨h1, h2, h3⟩ := runPoll_streaming_spec frameSize h chunks acc hacc
  have hjoin : ((runPoll true frameSize acc chunks).1.flatten).length =
      (runPoll true frameSize acc chunks).1.length * frameSize := by
    rw [List.length_flatten]
    have hall : ∀ l ∈ (runPoll true frameSize acc chunks).1.map List.length, l = frameSize := by
      intro l hl
      rcases List.mem_map.mp hl with ⟨f, hf, rfl⟩
      exact h1 f hf
    rw [List.eq_replicate_of_mem hall, List.sum_replicate, List.length_map, smul_eq_mul]
  have hlen : ((runPoll true frameSize acc chunks).1.flatten).length +
      (runPoll true frameSize acc chunks).2.length = (acc ++ chunks.flatten).length := by
    rw [← List.length_append, h2]
  have key : (runPoll true frameSize acc chunks).2.length +
      frameSize * (runPoll true frameSize acc chunks).1.length = (acc ++ chunks.flatten).length ∧
      (runPoll true frameSize acc chunks).2.length < frameSize := by
    exact ⟨by rw [Nat.mul_comm]; omega, h3⟩
  have hdm := (Nat.div_mod_unique h).mpr key
  exact ⟨h1, h2, h3, hdm.1.symm, hdm.2.symm⟩

/-- C1 witness: with sample rate 16000, 1 channel (frame size 640) and an
accumulator holding 1601 bytes, the streaming-path loop emits exactly two
640-byte frames and retains a 321-byte remainder, while the fallback path
emits none. -/
theorem capture_frames_exact_witness :
    0 < bytesPer20ms 16000 1 ∧
    bytesPer20ms 16000 1 = 640 ∧
    (runPoll true (bytesPer20ms 16000 1) [] [List.replicate 1601 0]).1.length = 2 ∧
    (runPoll true (bytesPer20ms 16000 1) [] [List.replicate 1601 0]).2.length = 321 ∧
    (∀ f ∈ (runPoll true (bytesPer20ms 16000 1) [] [List.replicate 1601 0]).1,
      f.length = 640) ∧
    (runPoll false (bytesPer20ms 16000 1) [] [List.replicate 1601 0]).1 = [] := by
  have h := capture_frames_exact (bytesPer20ms 16000 1) (by decide)
    [List.replicate 1601 0] [] (by decide)
  obtain ⟨⟨h1, _, _, h4, h5⟩, hf1, _⟩ := h
  have hlen : (([] : List Nat) ++ ([List.replicate 1601 (0 : Nat)]).flatten).length = 1601 := by
    simp only [List.nil_append, List.flatten_cons, List.flatten_nil, List.append_nil,
      List.length_replicate]
  refine ⟨by decide, by decide, ?_, ?_, ?_, hf1⟩
  · rw [h4, hlen]; decide
  · rw [h5, hlen]; decide
  · intro f hf
    exact h1 f hf

/-! ### Connection coordinator readiness machine (`LocalMacTransport`)

Sides are the strings `"in"` and `"out"` in the Python source; readiness is
tracked in `_required_sides`, `_ready_sides`, `_connected_emitted`,
`_disconnected_emitted`. -/

inductive Side where
  | input
  | output
deriving DecidableEq, Fintype

structure CoordState where
  required : Finset Side
  ready : Finset Side
  connectedEmitted : Bool
  disconnectedEmitted : Bool

attribute [ext] CoordState

/-- State of `LocalMacTransport.__init__`: empty ready set, both flags false. -/
def initCoord (required : Finset Side) : CoordState :=
  { required := required, ready := ∅, connectedEmitted := false,
    disconnectedEmitted := false }

inductive ConnEvent where
  | connected
  | disconnected
deriving DecidableEq, BEq

/-- `LocalMacTransport._maybe_emit_connected`. -/
def maybeEmitConnected (s : CoordState) : CoordState × List ConnEvent :=
  if ¬ s.connectedEmitted ∧ s.required.Nonempty ∧ s.required ⊆ s.ready then
    ({ s with connectedEmitted := true }, [ConnEvent.connected])
  else (s, [])

/-- `LocalMacTransport._on_side_ready`. -/
def onSideReady (s : CoordState) (side : Side) : CoordState × List ConnEvent :=
  if s.required = ∅ then (s, [])
  else
    let s1 := if s.disconnectedEmitted then
        { s with ready := ∅, connectedEmitted := false, disconnectedEmitted := false }
      else s
    if side ∈ s1.required then
      maybeEmitConnected { s1 with ready := insert side s1.ready }
    else (s1, [])

/-- `LocalMacTransport._emit_disconnected_once`. -/
def emitDisconnectedOnce (s : CoordState) : CoordState × List ConnEvent :=
  if s.required.Nonempty ∧ s.connectedEmitted ∧ ¬ s.disconnectedEmitted then
    ({ s with disconnectedEmitted := true }, [ConnEvent.disconnected])
  else (s, [])

/-- `LocalMacTransport._on_side_stopped`. -/
def onSideStopped (s : CoordState) (side : Side) : CoordState × List ConnEvent :=
  emitDisconnectedOnce { s with ready := s.ready.erase side }

inductive CoordSig where
  | ready (side : Side)
  | stopped (side : Side)
deriving DecidableEq

def coordStep (s : CoordState) : CoordSig → CoordState × List ConnEvent
  | CoordSig.ready side => onSideReady s side
  | CoordSig.stopped side => onSideStopped s side

def runCoord (s : CoordState) : List CoordSig → CoordState × List ConnEvent
  | [] => (s, [])
  | sig :: sigs =>
      let t := coordStep s sig
      let r := runCoord t.1 sigs
      (r.1, t.2 ++ r.2)

def connectedCount (evs : List ConnEvent) : Nat :=
  evs.count ConnEvent.connected

/-- Shape of every state reachable by ready-only signal sequences: the ready
set is `required ∩ T` where `T` is the set of sides signalled so far, the
connected flag records whether `required ⊆ T`, and disconnected is unset. -/
def mkReadyState (req T : Finset Side) : CoordState :=
  { required := req, ready := req ∩ T, connectedEmitted := decide (req ⊆ T),
    disconnectedEmitted := false }

theorem onSideReady_fields : ∀ (req T : Finset Side) (a : Side), req.Nonempty →
    ((onSideReady (mkReadyState req T) a).1.required = req ∧
     (onSideReady (mkReadyState req T) a).1.ready = req ∩ insert a T ∧
     (onSideReady (mkReadyState req T) a).1.connectedEmitted = decide (req ⊆ insert a T) ∧
     (onSideReady (mkReadyState req T) a).1.disconnectedEmitted = false) ∧
    (onSideReady (mkReadyState req T) a).2 =
      (if req ⊆ insert a T ∧ ¬ req ⊆ T then [ConnEvent.connected] else []) := by
  decide

theorem onSideReady_inv (req T : Finset Side) (a : Side) (hne : req.Nonempty) :
    onSideReady (mkReadyState req T) a =
      (mkReadyState req (insert a T),
        if req ⊆ insert a T ∧ ¬ req ⊆ T then [ConnEvent.connected] else []) := by
  obtain ⟨⟨f1, f2, f3, f4⟩, fe⟩ := onSideReady_fields req T a hne
  refine Prod.ext ?_ (by rw [fe])
  ext
  · rw [f1]; rfl
  · rw [f2]; rfl
  · rw [f3]; rfl
  · rw [f4]; rfl

theorem runCoord_ready (req : Finset Side) (hne : req.Nonempty) (p : List Side)
    (T : Finset Side) :
    (runCoord (mkReadyState req T) (p.map CoordSig.ready)).1
        = mkReadyState req (T ∪ p.toFinset) ∧
    connectedCount (runCoord (mkReadyState req T) (p.map CoordSig.ready)).2
        = if req ⊆ T ∪ p.toFinset ∧ ¬ req ⊆ T then 1 else 0 := by
  induction p generalizing T with
  | nil =>
    refine ⟨by simp [runCoord, Finset.union_empty], ?_⟩
    rw [List.toFinset_nil, Finset.union_empty]
    simp only [runCoord, connectedCount, List.count_nil]
    exact (if_neg (fun hc => hc.2 hc.1)).symm
  | cons a p' ih =>
    have hset : insert a T ∪ p'.toFinset = T ∪ (a :: p').toFinset := by
      rw [List.toFinset_cons, Finset.union_insert, Finset.insert_union]
    have hstep := onSideReady_inv req T a hne
    obtain ⟨ih1, ih2⟩ := ih (insert a T)
    simp only [List.map_cons, runCoord, coordStep, hstep]
    constructor
    · rw [ih1, hset]
    · simp only [connectedCount] at ih2 ⊢
      rw [List.count_append, ih2, ← hset]
      have hTa : T ⊆ insert a T := Finset.subset_insert a T
      by_cases h1 : req ⊆ T
      · have h2 : req ⊆ insert a T := h1.trans hTa
        rw [if_neg (fun hc => hc.2 h1), if_neg (fun hc => hc.2 h2),
          if_neg (fun hc => hc.2 h1)]
        rfl
      · by_cases h2 : req ⊆ insert a T
        · have h3 : req ⊆ insert a T ∪ p'.toFinset := h2.trans Finset.subset_union_left
          rw [if_pos ⟨h2, h1⟩, if_neg (fun hc => hc.2 h2), if_pos ⟨h3, h1⟩]
          rfl
        · by_cases h3 : req ⊆ insert a T ∪ p'.toFinset
          · rw [if_neg (fun hc => h2 hc.1), if_pos ⟨h3, h2⟩, if_pos ⟨h3, h1⟩]
            rfl
          · rw [if_neg (fun hc => h2 hc.1), if_neg (fun hc => h3 hc.1),
              if_neg (fun hc => h3 hc.1)]
            rfl

theorem mkReadyState_empty (req : Finset Side) (hne : req.Nonempty) :
    mkReadyState req ∅ = initCoord req := by
  have hns : ¬ req ⊆ ∅ := fun h =>
    Finset.nonempty_iff_ne_empty.mp hne (Finset.subset_empty.mp h)
  simp only [mkReadyState, initCoord, Finset.inter_empty, decide_eq_false hns]

theorem connectedCount_fresh (req : Finset Side) (hne : req.Nonempty) (q : List Side) :
    connectedCount (runCoord (initCoord req) (q.map CoordSig.ready)).2 =
      if req ⊆ q.toFinset then 1 else 0 := by
  have hns : ¬ req ⊆ ∅ := fun h =>
    Finset.nonempty_iff_ne_empty.mp hne (Finset.subset_empty.mp h)
  have h := (runCoord_ready req hne q ∅).2
  rw [mkReadyState_empty req hne, Finset.empty_union] at h
  rw [h]
  by_cases hc : req ⊆ q.toFinset
  · rw [if_pos ⟨hc, hns⟩, if_pos hc]
  · rw [if_neg (fun hh => hc hh.1), if_neg hc]

/-- C2: with a non-empty required-sides set, for every sequence of side-ready
signals and every prefix of it, the number of connected events emitted while
processing that prefix is 1 if the sides signalled in the prefix cover the
required set and 0 otherwise — so connected fires exactly once, exactly at the
first moment the ready set becomes a superset of the required set, regardless
of signal order or repetition. -/
theorem connected_fires_exactly_once (req : Finset Side) (hne : req.Nonempty)
    (p : List Side) (n : Nat) :
    connectedCount (runCoord (initCoord req) ((p.take n).map CoordSig.ready)).2 =
      if req ⊆ (p.take n).toFinset then 1 else 0 :=
  connectedCount_fresh req hne (p.take n)

/-- C2 witness: required = both sides; the prefix of length 2 of the signal
sequence input-ready, output-ready, input-ready emits connected exactly once. -/
theorem connected_fires_exactly_once_witness :
    connectedCount (runCoord (initCoord {Side.input, Side.output})
        (([Side.input, Side.output, Side.input].take 2).map CoordSig.ready)).2 = 1 := by
  have h := connected_fires_exactly_once {Side.input, Side.output} (by decide)
    [Side.input, Side.output, Side.input] 2
  rw [if_pos (by decide)] at h
  exact h

theorem coordStep_empty_required (sig : CoordSig) :
    coordStep (initCoord ∅) sig = (initCoord ∅, []) := by
  cases sig with
  | ready side => simp [coordStep, onSideReady, initCoord]
  | stopped side =>
    simp [coordStep, onSideStopped, emitDisconnectedOnce, initCoord,
      Finset.erase_empty, Finset.not_nonempty_empty]

/-- C6: if the required-sides set is empty (both audio directions disabled),
then no sequence of side-ready / side-stopped signals ever emits a connected
or disconnected event, and the coordinator state never changes. -/
theorem no_events_without_required_sides (sigs : List CoordSig) :
    (runCoord (initCoord ∅) sigs).2 = [] ∧
    (runCoord (initCoord ∅) sigs).1 = initCoord ∅ := by
  induction sigs with
  | nil => exact ⟨rfl, rfl⟩
  | cons sig rest ih =>
    simp only [runCoord, coordStep_empty_required]
    exact ⟨by rw [ih.1]; rfl, ih.2⟩

theorem coordStep_required (s : CoordState) (sig : CoordSig) :
    (coordStep s sig).1.required = s.required := by
  cases sig with
  | ready side =>
    simp only [coordStep, onSideReady, maybeEmitConnected]
    repeat' split
    all_goals rfl
  | stopped side =>
    simp only [coordStep, onSideStopped, emitDisconnectedOnce]
    split
    all_goals rfl

theorem coordStep_connected_nonempty (s : CoordState) (sig : CoordSig)
    (h : s.connectedEmitted = true → s.required.Nonempty) :
    (coordStep s sig).1.connectedEmitted = true → s.required.Nonempty := by
  cases sig with
  | ready side =>
    simp only [coordStep, onSideReady, maybeEmitConnected]
    repeat' split
    all_goals intro hc
    all_goals first
      | exact h hc
      | (rename_i hcond _; exact hcond.2.1)
      | (rename_i hcond; exact hcond.2.1)
      | simp_all
  | stopped side =>
    simp only [coordStep, onSideStopped, emitDisconnectedOnce]
    split
    all_goals intro hc
    all_goals exact h hc

theorem coordStep_disc_imp_conn (s : CoordState) (sig : CoordSig)
    (h : s.disconnectedEmitted = true → s.connectedEmitted = true) :
    (coordStep s sig).1.disconnectedEmitted = true →
      (coordStep s sig).1.connectedEmitted = true := by
  cases sig with
  | ready side =>
    simp only [coordStep, onSideReady, maybeEmitConnected]
    repeat' split
    all_goals intro hd
    all_goals first
      | rfl
      | exact h hd
      | simp_all
  | stopped side =>
    simp only [coordStep, onSideStopped, emitDisconnectedOnce]
    split
    all_goals intro hd
    all_goals first
      | (rename_i hcond; exact hcond.2.1)
      | exact h hd

theorem runCoord_inv_aux (sigs : List CoordSig) (s : CoordState)
    (h1 : s.connectedEmitted = true → s.required.Nonempty)
    (h2 : s.disconnectedEmitted = true → s.connectedEmitted = true) :
    (runCoord s sigs).1.required = s.required ∧
    ((runCoord s sigs).1.connectedEmitted = true → s.required.Nonempty) ∧
    ((runCoord s sigs).1.disconnectedEmitted = true →
      (runCoord s sigs).1.connectedEmitted = true) := by
  induction sigs generalizing s with
  | nil => exact ⟨rfl, h1, h2⟩
  | cons sig rest ih =>
    have hreq := coordStep_required s sig
    have hc := coordStep_connected_nonempty s sig h1
    have hd := coordStep_disc_imp_conn s sig h2
    obtain ⟨i1, i2, i3⟩ := ih (coordStep s sig).1 (by rw [hreq]; exact hc) hd
    simp only [runCoord]
    exact ⟨by rw [i1, hreq], fun hcc => by rw [← hreq]; exact i2 hcc, i3⟩

theorem onSideReady_after_disc (s : CoordState) (side : Side)
    (hdisc : s.disconnectedEmitted = true) (hne : s.required.Nonempty) :
    onSideReady s side = onSideReady (initCoord s.required) side := by
  have hne' : s.required ≠ ∅ := Finset.nonempty_iff_ne_empty.mp hne
  obtain ⟨r, rd, c, d⟩ := s
  simp only [CoordState.disconnectedEmitted] at hdisc
  subst hdisc
  simp only [CoordState.required] at hne'
  simp [onSideReady, initCoord, hne']

theorem onSideStopped_after_disc (s : CoordState) (side : Side)
    (hdisc : s.disconnectedEmitted = true) :
    (onSideStopped s side).2 = [] := by
  simp [onSideStopped, emitDisconnectedOnce, hdisc]

/-- C3: in every reachable state of the readiness machine, the disconnected
flag can only be set when the connected flag is set (disconnected only after
connected in a session); once disconnected has been emitted, further
side-stopped signals emit nothing (at most one disconnected per connected
session); and after a disconnect the next side-ready signal re-arms the
machine: a subsequent readiness cycle covering the required set emits a fresh
connected event exactly once. -/
theorem disconnected_once_and_rearm (req : Finset Side) (sigs : List CoordSig) :
    ((runCoord (initCoord req) sigs).1.disconnectedEmitted = true →
      (runCoord (initCoord req) sigs).1.connectedEmitted = true) ∧
    ((runCoord (initCoord req) sigs).1.disconnectedEmitted = true →
      ∀ side, (onSideStopped (runCoord (initCoord req) sigs).1 side).2 = []) ∧
    ((runCoord (initCoord req) sigs).1.disconnectedEmitted = true →
      ∀ p : List Side,
        connectedCount (runCoord ((runCoord (initCoord req) sigs).1)
            (p.map CoordSig.ready)).2 =
          if req ⊆ p.toFinset then 1 else 0) := by
  obtain ⟨i1, i2, i3⟩ := runCoord_inv_aux sigs (initCoord req)
    (fun h => by simp [initCoord] at h) (fun h => by simp [initCoord] at h)
  refine ⟨i3, fun hdisc side => onSideStopped_after_disc _ side hdisc, ?_⟩
  intro hdisc p
  have hconn := i3 hdisc
  have hne : req.Nonempty := i2 hconn
  have hns : ¬ req ⊆ (∅ : Finset Side) := fun h =>
    Finset.nonempty_iff_ne_empty.mp hne (Finset.subset_empty.mp h)
  cases p with
  | nil =>
    simp only [List.map_nil, runCoord, connectedCount, List.count_nil,
      List.toFinset_nil]
    exact (if_neg hns).symm
  | cons a p' =>
    have hreq : (runCoord (initCoord req) sigs).1.required = req := i1
    have hstep := onSideReady_after_disc (runCoord (initCoord req) sigs).1 a hdisc
      (by rw [hreq]; exact hne)
    rw [hreq] at hstep
    have hfresh := connectedCount_fresh req hne (a :: p')
    simp only [List.map_cons, runCoord, coordStep] at hfresh ⊢
    rw [hstep]
    exact hfresh

/-- C3 witness: required = both sides; after input-ready, output-ready,
input-stopped the machine has emitted disconnected; thereafter any further
side-stopped signal emits nothing, and a fresh full readiness cycle emits
connected exactly once more. -/
theorem disconnected_once_and_rearm_witness :
    ((runCoord (initCoord {Side.input, Side.output})
        [CoordSig.ready Side.input, CoordSig.ready Side.output,
         CoordSig.stopped Side.input]).1.disconnectedEmitted = true) ∧
    (∀ side, (onSideStopped (runCoord (initCoord {Side.input, Side.output})
        [CoordSig.ready Side.input, CoordSig.ready Side.output,
         CoordSig.stopped Side.input]).1 side).2 = []) ∧
    connectedCount (runCoord ((runCoord (initCoord {Side.input, Side.output})
        [CoordSig.ready Side.input, CoordSig.ready Side.output,
         CoordSig.stopped Side.input]).1)
        ([Side.input, Side.output].map CoordSig.ready)).2 = 1 := by
  have h := disconnected_once_and_rearm {Side.input, Side.output}
    [CoordSig.ready Side.input, CoordSig.ready Side.output, CoordSig.stopped Side.input]
  have hdisc : (runCoord (initCoord {Side.input, Side.output})
      [CoordSig.ready Side.input, CoordSig.ready Side.output,
       CoordSig.stopped Side.input]).1.disconnectedEmitted = true := by decide
  refine ⟨hdisc, h.2.1 hdisc, ?_⟩
  have h3 := h.2.2 hdisc [Side.input, Side.output]
  rw [if_pos (by decide)] at h3
  exact h3

/-! ### Software playback path and interruption (`MacOutputTransport`)

The software pacing path keeps an `asyncio.Queue` (`_play_queue`) of raw frame
payloads and a pacer task with a local working buffer `buf`.  The pacer
dequeues a chunk only when `buf` is empty, then writes `buf` out in slices,
sleeping between writes (a suspension point at which other coroutines — in
particular `process_frame` handling a `StartInterruptionFrame` — may run).
`_clear_play_queue` drains the queue with `get_nowait` until empty. -/

structure PlayState where
  queue : List (List Nat)
  buf : List Nat
  written : List (List Nat)

inductive PlayEv where
  | enqueue (chunk : List Nat)
  | dequeue
  | writeSlice
  | interrupt

/-- One atomic step of the cooperative playback system between suspension
points: `enqueue` is `write_audio_frame` putting a payload on `_play_queue`;
`dequeue` is the pacer's `chunk = await self._play_queue.get(); buf.extend(chunk)`
(enabled only when `buf` is empty); `writeSlice` is one iteration of the
pacer's inner while-loop (enabled while `len(buf) >= bytes_per_5ms`), writing
one slice to the engine; `interrupt` is `process_frame(StartInterruptionFrame)`
running `_clear_play_queue`. -/
def playStep (sliceSize : Nat) (s : PlayState) : PlayEv → PlayState
  | PlayEv.enqueue chunk => { s with queue := s.queue ++ [chunk] }
  | PlayEv.dequeue =>
      match s.buf, s.queue with
      | [], c :: q => { s with queue := q, buf := c }
      | _, _ => s
  | PlayEv.writeSlice =>
      if sliceSize ≤ s.buf.length then
        { s with buf := s.buf.drop sliceSize,
                 written := s.written ++ [s.buf.take sliceSize] }
      else s
  | PlayEv.interrupt => { s with queue := [] }

def runPlay (sliceSize : Nat) (s : PlayState) : List PlayEv → PlayState
  | [] => s
  | e :: es => runPlay sliceSize (playStep sliceSize s e) es

/-- C4 counterexample: with slice size 2, enqueue the payload `[1,2,3,4]`, let
the pacer dequeue it and write one slice, then process an interruption while
the pacer is suspended: the pacer's working buffer still holds the
pre-interruption bytes `[3,4]`, and the very next pacer step writes them to
the engine — audio data enqueued before the interruption is written after it,
so the interruption does not remove already-dequeued unwritten slices. -/
theorem interruption_misses_pacer_buffer :
    (runPlay 2 ⟨[], [], []⟩
      [PlayEv.enqueue [1, 2, 3, 4], PlayEv.dequeue, PlayEv.writeSlice,
       PlayEv.interrupt]).buf = [3, 4] ∧
    (runPlay 2 ⟨[], [], []⟩
      [PlayEv.enqueue [1, 2, 3, 4], PlayEv.dequeue, PlayEv.writeSlice,
       PlayEv.interrupt, PlayEv.writeSlice]).written = [[1, 2], [3, 4]] := by
  constructor <;> rfl

/-- C4 amended: processing an interruption clears the pacer queue completely —
every queued-but-not-yet-dequeued payload is removed before any subsequent
frame is accepted — but it leaves the pacer's working buffer (and the write
history) unchanged, so slices already dequeued into the working buffer may
still be written to the engine afterwards. -/
theorem interruption_clears_queue_only (sliceSize : Nat) (s : PlayState) :
    (playStep sliceSize s PlayEv.interrupt).queue = [] ∧
    (playStep sliceSize s PlayEv.interrupt).buf = s.buf ∧
    (playStep sliceSize s PlayEv.interrupt).written = s.written :=
  ⟨rfl, rfl, rfl⟩

/-! ### Engine stream start and error propagation -/

/-- `_VPIOLib.start_stream`: uses `vpio_start_stream` when available, else
`vpio_init`; returns whether the return code was zero. -/
def start_stream (hasStream : Bool) (rcStream rcInit : Int) : Bool :=
  if hasStream then decide (rcStream = 0) else decide (rcInit = 0)

/-- `LocalMacTransport._ensure_stream_started`: no-op when already started;
otherwise raises `RuntimeError("Failed to start VPIO stream")` when
`start_stream` reports failure, and records the started flag on success.
Returns the new `_stream_started` flag. -/
def ensure_stream_started (streamStarted : Bool) (startOk : Bool) :
    Except String Bool :=
  if streamStarted then Except.ok streamStarted
  else if startOk then Except.ok true
  else Except.error "Failed to start VPIO stream"

structure StartOutcome where
  raised : Bool
  loggedError : Bool
  streamStarted : Bool

/-- The engine-start step of `MacInputTransport.start` and
`MacOutputTransport.start`:
`try: await self._parent._ensure_stream_started() except Exception:
logger.exception(...)` — any exception is caught and logged, never
re-raised to the caller of `start()`. -/
def sideStartEngineStep (streamStarted startOk : Bool) : StartOutcome :=
  match ensure_stream_started streamStarted startOk with
  | Except.ok st => { raised := false, loggedError := false, streamStarted := st }
  | Except.error _ =>
      { raised := false, loggedError := true, streamStarted := streamStarted }

/-- C5 counterexample: on a fresh transport whose engine stream fails to start,
`_ensure_stream_started` raises RuntimeError, but the side's `start()` catches
and logs it — nothing is raised to the caller of `start()`, contrary to the
claim. -/
theorem start_failure_not_raised :
    ensure_stream_started false false = Except.error "Failed to start VPIO stream" ∧
    (sideStartEngineStep false false).raised = false ∧
    (sideStartEngineStep false false).loggedError = true :=
  ⟨rfl, rfl, rfl⟩

/-- C5 amended: when the engine stream fails to start, the RuntimeError is
raised only to the caller of `_ensure_stream_started`; each side's `start()`
wraps that call in try/except, so the error is logged and `start()` never
propagates it to its caller. -/
theorem start_failure_logged_not_raised (streamStarted startOk : Bool) :
    (streamStarted = false → startOk = false →
      ensure_stream_started streamStarted startOk =
        Except.error "Failed to start VPIO stream") ∧
    (sideStartEngineStep streamStarted startOk).raised = false ∧
    ((sideStartEngineStep streamStarted startOk).loggedError = true ↔
      (streamStarted = false ∧ startOk = false)) := by
  cases streamStarted <;> cases startOk <;>
    exact ⟨fun h1 h2 => by first | rfl | simp_all, rfl, by decide⟩

/-- C5 witness for the amended claim at the failing input. -/
theorem start_failure_logged_not_raised_witness :
    ensure_stream_started false false = Except.error "Failed to start VPIO stream" ∧
    (sideStartEngineStep false false).raised = false ∧
    (sideStartEngineStep false false).loggedError = true := by
  have h := start_failure_logged_not_raised false false
  exact ⟨h.1 rfl rfl, h.2.1, h.2.2.mpr ⟨rfl, rfl⟩⟩

/-! ### Native library binding (`_VPIOLib.__init__`) and capability selection -/

structure VPIOCaps where
  has_stream : Bool
  has_write_10ms : Bool
  has_play_thread : Bool
  has_flush_input : Bool
  has_reset_capture : Bool
  has_debug : Bool
  has_read_capture : Bool
  has_write_playback : Bool
  has_flush_playback : Bool

/-- Entry points whose prototypes `_VPIOLib.__init__` assigns outside any
try/except: a library missing one of these raises AttributeError at
construction. -/
def requiredSyms : List String :=
  ["vpio_init", "vpio_record", "vpio_get_capture_size", "vpio_copy_capture",
   "vpio_play", "vpio_shutdown"]

/-- `_VPIOLib.__init__` after `CDLL` succeeds, with `avail` telling which
symbols the library exports: required symbols are resolved bare (in source
order — missing one raises), optional groups are probed inside try/except and
only lower their capability flag.  `has_flush_input` is set only when the
paced-thread group resolved (its probe is nested in that group's try block;
consumers read it through `getattr(..., False)`).  `has_read_capture` /
`has_write_playback` / `has_flush_playback` record whether the attribute
lookups done later (in `_poll_capture`, `_playback_pacer`,
`MacOutputTransport.__init__`) will succeed. -/
def vpioBind (avail : String → Bool) : Except String VPIOCaps :=
  if ¬ avail "vpio_init" then Except.error "vpio_init" else
  if ¬ avail "vpio_record" then Except.error "vpio_record" else
  if ¬ avail "vpio_get_capture_size" then Except.error "vpio_get_capture_size" else
  if ¬ avail "vpio_copy_capture" then Except.error "vpio_copy_capture" else
  if ¬ avail "vpio_play" then Except.error "vpio_play" else
  if ¬ avail "vpio_shutdown" then Except.error "vpio_shutdown" else
  Except.ok
    { has_stream := avail "vpio_start_stream"
      has_write_10ms := avail "vpio_write_frame_10ms"
      has_play_thread := avail "vpio_start_playback_thread" &&
        avail "vpio_stop_playback_thread" && avail "vpio_set_target_headroom_ms"
      has_flush_input := (avail "vpio_start_playback_thread" &&
        avail "vpio_stop_playback_thread" && avail "vpio_set_target_headroom_ms") &&
        avail "vpio_flush_input"
      has_reset_capture := avail "vpio_reset_capture"
      has_debug := avail "vpio_get_bypass" && avail "vpio_get_in_sample_rate" &&
        avail "vpio_get_out_sample_rate" && avail "vpio_get_ring_levels" &&
        avail "vpio_get_underflow_count" && avail "vpio_reset_underflow_count"
      has_read_capture := avail "vpio_read_capture"
      has_write_playback := avail "vpio_write_playback"
      has_flush_playback := avail "vpio_flush_playback" }

inductive PlaybackStrategy where
  | nativePaced
  | softwarePacer
deriving DecidableEq

/-- `MacOutputTransport.start`: the native paced thread is used only when both
`has_play_thread` and `has_write_10ms` hold and `vpio_start_playback_thread`
returns 0; in every other case `_play_queue` and the Python pacer task are
created. -/
def selectPlaybackStrategy (caps : VPIOCaps) (threadStartRc : Int) :
    PlaybackStrategy :=
  if caps.has_play_thread && caps.has_write_10ms then
    if threadStartRc ≠ 0 then PlaybackStrategy.softwarePacer
    else PlaybackStrategy.nativePaced
  else PlaybackStrategy.softwarePacer

inductive CaptureReadPath where
  | streamingRing
  | singleShotFallback
deriving DecidableEq

/-- The read path taken by each `_poll_capture` tick: `vpio_read_capture` when
the symbol resolves; otherwise the AttributeError handler runs the single-shot
`vpio_record` / `vpio_copy_capture` fallback (resetting the capture buffer
when `has_reset_capture`). -/
def captureReadPath (caps : VPIOCaps) : CaptureReadPath :=
  if caps.has_read_capture then CaptureReadPath.streamingRing
  else CaptureReadPath.singleShotFallback

/-- An availability map exporting exactly the required symbol set. -/
def requiredOnlyAvail : String → Bool := fun s => requiredSyms.contains s

/-- C7: binding a library that resolves only the required symbol set succeeds
(no exception), with every optional capability flag false; the output side then
selects the software pacer strategy (queue plus pacer task, never the native
paced thread, whatever return code that thread would give), and the capture
poll loop takes the single-shot record/copy/reset fallback path. -/
theorem required_only_binding (threadStartRc : Int) :
    vpioBind requiredOnlyAvail = Except.ok
      { has_stream := false, has_write_10ms := false, has_play_thread := false,
        has_flush_input := false, has_reset_capture := false, has_debug := false,
        has_read_capture := false, has_write_playback := false,
        has_flush_playback := false } ∧
    selectPlaybackStrategy
      { has_stream := false, has_write_10ms := false, has_play_thread := false,
        has_flush_input := false, has_reset_capture := false, has_debug := false,
        has_read_capture := false, has_write_playback := false,
        has_flush_playback := false } threadStartRc = PlaybackStrategy.softwarePacer ∧
    captureReadPath
      { has_stream := false, has_write_10ms := false, has_play_thread := false,
        has_flush_input := false, has_reset_capture := false, has_debug := false,
        has_read_capture := false, has_write_playback := false,
        has_flush_playback := false } = CaptureReadPath.singleShotFallback :=
  ⟨rfl, rfl, rfl⟩

/-! ### Software pacer metrics (`MacOutputTransport._pacer_metrics`) -/

structure PacerStats where
  sum_dt : ℚ
  count : Nat
  max_dt : ℚ
  slow_count : Nat

def PacerStats.start : PacerStats := ⟨0, 0, 0, 0⟩

/-- The metrics update performed by `_playback_pacer` for one measured
inter-write interval `dt` (threshold 0.012 s for a slow write). -/
def addSample (m : PacerStats) (dt : ℚ) : PacerStats :=
  { sum_dt := m.sum_dt + dt
    count := m.count + 1
    max_dt := if dt > m.max_dt then dt else m.max_dt
    slow_count := if dt > 12 / 1000 then m.slow_count + 1 else m.slow_count }

structure PacerReport where
  avg : ℚ
  mx : ℚ
  slow : Nat

/-- One reporting tick of `_pacer_metrics` on the software-pacer path
(`_has_play_thread` false): compute avg (0 when no samples), max and
slow-count from the rolling counters, then reset all four counters. -/
def reportAndReset (m : PacerStats) : PacerReport × PacerStats :=
  ({ avg := if m.count ≠ 0 then m.sum_dt / m.count else 0
     mx := m.max_dt
     slow := m.slow_count }, PacerStats.start)

/-- The metrics task over a sequence of reporting intervals, each given by the
list of interval samples measured (in order) during that reporting window. -/
def runIntervals (m : PacerStats) : List (List ℚ) → List PacerReport
  | [] => []
  | ds :: rest =>
      let m1 := ds.foldl addSample m
      (reportAndReset m1).1 :: runIntervals (reportAndReset m1).2 rest

/-- The statistics of one interval's samples taken in isolation. -/
def intervalReport (ds : List ℚ) : PacerReport :=
  (reportAndReset (ds.foldl addSample PacerStats.start)).1

/-- C8: the report emitted at interval N is a function of interval N's samples
alone — running the metrics task over any sequence of intervals produces
exactly the isolated per-interval statistics, because the rolling sum, count,
max and slow-count are reset at every report and never carry data from the
previous interval. -/
theorem pacer_metrics_no_carryover (intervals : List (List ℚ)) :
    runIntervals PacerStats.start intervals = intervals.map intervalReport := by
  induction intervals with
  | nil => rfl
  | cons ds rest ih =>
    show (reportAndReset (ds.foldl addSample PacerStats.start)).1 ::
        runIntervals (reportAndReset (ds.foldl addSample PacerStats.start)).2 rest
      = intervalReport ds :: rest.map intervalReport
    rw [show (reportAndReset (ds.foldl addSample PacerStats.start)).2
        = PacerStats.start from rfl, ih]
    rfl

/-! ### Output frame acceptance (`MacOutputTransport.write_audio_frame`) -/

structure WriteCall where
  audioLen : Nat
  frameRate : Nat
  now : ℚ

structure WriteOutcome where
  dispatched : Bool
  warnings : Nat
  warnTs : ℚ

/-- One rate-limited warning check: `if mismatch: if now - warn_ts >= 1.0:
logger.warning(...); warn_ts = now`. Returns (logged, new warn_ts). -/
def warnStep (mismatch : Bool) (now ts : ℚ) : Bool × ℚ :=
  if mismatch ∧ now - ts ≥ 1 then (true, now) else (false, ts)

/-- `write_audio_frame`: empty payloads return at once (no warning check, no
dispatch); otherwise the declared sample rate is validated against the
transport rate (skipped when the frame's rate is falsy, i.e. 0) and the length
against one 10 ms unit (`int(self.sample_rate / 100) * channels * 2`; a zero
unit makes `%` raise ZeroDivisionError, swallowed by the surrounding
try/except), both sharing the `_warn_ts` rate limiter; the frame is then
dispatched to the active playback strategy unconditionally. -/
def write_audio_frame (transportRate channels : Nat) (call : WriteCall)
    (warnTs : ℚ) : WriteOutcome :=
  if call.audioLen = 0 then
    { dispatched := false, warnings := 0, warnTs := warnTs }
  else
    let expected10ms := transportRate / 100 * channels * 2
    let w1 := warnStep
      (decide (call.frameRate ≠ 0) && decide (call.frameRate ≠ transportRate))
      call.now warnTs
    let w2 := warnStep
      (decide (expected10ms ≠ 0) && decide (call.audioLen % expected10ms ≠ 0))
      call.now w1.2
    { dispatched := true, warnings := w1.1.toNat + w2.1.toNat, warnTs := w2.2 }

theorem warnStep_true (mismatch : Bool) (now ts : ℚ)
    (h : (warnStep mismatch now ts).1 = true) :
    ts + 1 ≤ now ∧ (warnStep mismatch now ts).2 = now := by
  unfold warnStep at h ⊢
  split at h
  · rename_i hc
    constructor
    · linarith [hc.2]
    · rw [if_pos hc]
  · exact absurd h (by simp)

theorem warnStep_false (mismatch : Bool) (now ts : ℚ)
    (h : (warnStep mismatch now ts).1 = false) :
    (warnStep mismatch now ts).2 = ts := by
  unfold warnStep at h ⊢
  split at h
  · exact absurd h (by simp)
  · rename_i hc
    rw [if_neg hc]

theorem write_warn_props (transportRate channels : Nat) (call : WriteCall)
    (ts : ℚ) :
    (write_audio_frame transportRate channels call ts).warnings ≤ 1 ∧
    ((write_audio_frame transportRate channels call ts).warnings ≠ 0 →
      ts + 1 ≤ call.now ∧
      (write_audio_frame transportRate channels call ts).warnTs = call.now) ∧
    ((write_audio_frame transportRate channels call ts).warnings = 0 →
      (write_audio_frame transportRate channels call ts).warnTs = ts) := by
  unfold write_audio_frame
  by_cases h0 : call.audioLen = 0
  · simp [h0]
  · simp only [if_neg h0]
    set m1 := decide (call.frameRate ≠ 0) && decide (call.frameRate ≠ transportRate)
    set m2 := decide (transportRate / 100 * channels * 2 ≠ 0) &&
      decide (call.audioLen % (transportRate / 100 * channels * 2) ≠ 0)
    rcases hb1 : (warnStep m1 call.now ts).1 with _ | _
    · -- first check did not log
      have he1 := warnStep_false m1 call.now ts hb1
      simp only [hb1, he1]
      rcases hb2 : (warnStep m2 call.now ts).1 with _ | _
      · have he2 := warnStep_false m2 call.now ts hb2
        simp only [hb2, he2]
        exact ⟨by simp, by simp, fun _ => trivial⟩
      · have he2 := warnStep_true m2 call.now ts hb2
        exact ⟨by simp, fun _ => ⟨he2.1, he2.2⟩, by simp⟩
    · -- first check logged, so the second sees now - now < 1 and cannot
      have he1 := warnStep_true m1 call.now ts hb1
      simp only [hb1, he1.2]
      have hb2 : (warnStep m2 call.now call.now).1 = false := by
        unfold warnStep
        rw [if_neg (fun hc => by linarith [hc.2])]
      have he2 := warnStep_false m2 call.now call.now hb2
      simp only [hb2, he2]
      exact ⟨by simp, fun _ => ⟨he1.1, trivial⟩, by simp⟩

/-- Times of the warnings logged over a sequence of calls, threading the
shared `_warn_ts` state. -/
def runWrites (transportRate channels : Nat) (warnTs : ℚ) :
    List WriteCall → List ℚ
  | [] => []
  | c :: cs =>
      let o := write_audio_frame transportRate channels c warnTs
      (if o.warnings ≠ 0 then [c.now] else []) ++
        runWrites transportRate channels o.warnTs cs

/-- Warning times start at least one second after `t0` and are pairwise at
least one second apart. -/
def spacedFrom (t0 : ℚ) : List ℚ → Prop
  | [] => True
  | t :: ts => t0 + 1 ≤ t ∧ spacedFrom t ts

theorem runWrites_spaced (transportRate channels : Nat) (calls : List WriteCall)
    (t0 : ℚ) : spacedFrom t0 (runWrites transportRate channels t0 calls) := by
  induction calls generalizing t0 with
  | nil => trivial
  | cons c cs ih =>
    obtain ⟨_, hw, hnw⟩ := write_warn_props transportRate channels c t0
    show spacedFrom t0
      ((if (write_audio_frame transportRate channels c t0).warnings ≠ 0
        then [c.now] else []) ++
        runWrites transportRate channels
          (write_audio_frame transportRate channels c t0).warnTs cs)
    by_cases hz : (write_audio_frame transportRate channels c t0).warnings ≠ 0
    · obtain ⟨hle, hts⟩ := hw hz
      rw [if_pos hz, hts]
      exact ⟨hle, ih c.now⟩
    · rw [if_neg hz, hnw (by omega)]
      exact ih t0

/-- C9: `write_audio_frame` returns immediately on an empty payload (nothing
dispatched, nothing logged, rate-limiter state unchanged); every non-empty
frame is dispatched to the active playback strategy even when its declared
sample rate differs from the configured output rate or its length is not a
multiple of the 10 ms unit byte size; each call logs at most one warning line,
and over any sequence of calls the logged warning times are at least one
second apart. -/
theorem write_audio_frame_spec (transportRate channels : Nat) (call : WriteCall)
    (ts t0 : ℚ) (calls : List WriteCall) :
    (call.audioLen = 0 →
      write_audio_frame transportRate channels call ts =
        { dispatched := false, warnings := 0, warnTs := ts }) ∧
    (call.audioLen ≠ 0 →
      (write_audio_frame transportRate channels call ts).dispatched = true) ∧
    (write_audio_frame transportRate channels call ts).warnings ≤ 1 ∧
    spacedFrom t0 (runWrites transportRate channels t0 calls) := by
  refine ⟨?_, ?_, (write_warn_props transportRate channels call ts).1,
    runWrites_spaced transportRate channels calls t0⟩
  · intro h0
    unfold write_audio_frame
    rw [if_pos h0]
  · intro h0
    unfold write_audio_frame
    rw [if_neg h0]

/-- C9 witness: concrete calls at 16000 Hz mono — an empty frame is ignored; a
321-byte frame declaring 24000 Hz (wrong rate, length not a multiple of the
320-byte 10 ms unit) is still dispatched with at most one warning; and over a
concrete call sequence warning times stay at least one second apart. -/
theorem write_audio_frame_spec_witness :
    write_audio_frame 16000 1 ⟨0, 16000, 0⟩ 0 =
      { dispatched := false, warnings := 0, warnTs := 0 } ∧
    (write_audio_frame 16000 1 ⟨321, 24000, 5⟩ 0).dispatched = true ∧
    (write_audio_frame 16000 1 ⟨321, 24000, 5⟩ 0).warnings ≤ 1 ∧
    spacedFrom 0 (runWrites 16000 1 0
      [⟨321, 24000, (3 : ℚ) / 2⟩, ⟨321, 24000, 2⟩, ⟨321, 24000, 3⟩]) :=
  ⟨(write_audio_frame_spec 16000 1 ⟨0, 16000, 0⟩ 0 0 []).1 rfl,
   (write_audio_frame_spec 16000 1 ⟨321, 24000, 5⟩ 0 0 []).2.1 (by decide),
   (write_audio_frame_spec 16000 1 ⟨321, 24000, 5⟩ 0 0 []).2.2.1,
   (write_audio_frame_spec 16000 1 ⟨0, 0, 0⟩ 0 0
      [⟨321, 24000, (3 : ℚ) / 2⟩, ⟨321, 24000, 2⟩, ⟨321, 24000, 3⟩]).2.2.2⟩

/-! ### Application messaging (`LocalMacTransport.send_app_message`) -/

/-- `send_app_message`: raises RuntimeError unless the input processor has
been created and connected has been emitted; on success pushes the message
into the input pipeline and fires the `on_app_message` handler.  The `ok`
payload records (message pushed, event fired); an error means neither effect
happened. -/
def send_app_message (inputExists connectedEmitted : Bool) :
    Except String (Bool × Bool) :=
  if ¬ inputExists ∨ ¬ connectedEmitted then
    Except.error "Transport input not ready; cannot send app message"
  else Except.ok (true, true)

/-- C10: `send_app_message` raises RuntimeError exactly when the input
processor has not been created or connected has not been emitted — in which
case no message is pushed and no on_app_message event is fired — and otherwise
pushes the message and fires the event. -/
theorem send_app_message_spec (inputExists connectedEmitted : Bool) :
    (inputExists = false ∨ connectedEmitted = false →
      send_app_message inputExists connectedEmitted =
        Except.error "Transport input not ready; cannot send app message") ∧
    (inputExists = true → connectedEmitted = true →
      send_app_message inputExists connectedEmitted = Except.ok (true, true)) := by
  cases inputExists <;> cases connectedEmitted <;>
    exact ⟨fun h => by first | rfl | simp_all, fun h1 h2 => by first | rfl | simp_all⟩

/-- C10 witness: with no input processor the call errors; with input created
and connected emitted it pushes the message and fires the event. -/
theorem send_app_message_spec_witness :
    send_app_message false true =
      Except.error "Transport input not ready; cannot send app message" ∧
    send_app_message true true = Except.ok (true, true) :=
  ⟨(send_app_message_spec false true).1 (Or.inl rfl),
   (send_app_message_spec true true).2 rfl rfl⟩

end Dictation
